import Mathlib

/-!
Verification of the override CLI (`packages/react-native-platform-override/src/Cli.ts`)
against its natural-language specification.

The CLI source is embedded shallowly: each command handler becomes a Lean
function over explicit inputs (the results of the external `Api` calls, the
spinner state, the lock state), and console output becomes a list of `Line`
values.  Components of the repository that are not part of the given source
file (the manifest store, the upgrade engine, the cross-process lock
implementation) are modelled from the specification; each such definition
carries a doc comment starting with `Modelled from the spec:`.
-/

/-! ## Cross-process lock (spec §4.5) and `doMain` (Cli.ts 346-359) -/

/-- Modelled from the spec: the state of the cross-process mutual-exclusion
lock (`CrossProcessLock` is not part of the given source).  The lock is either
free or held by exactly one process, identified by a natural number. -/
inductive LockState where
  | free : LockState
  | held (pid : Nat) : LockState
deriving DecidableEq, Repr

/-- Modelled from the spec: `tryLock()` is non-blocking; it returns `true`
and acquires the lock when the lock is free, and returns `false` immediately,
leaving the state unchanged, when another process holds it. -/
def tryLock (p : Nat) : LockState → Bool × LockState
  | .free => (true, .held p)
  | .held q => (false, .held q)

/-- Observable lock events of the processes sharing the lock. -/
inductive LockEv where
  | tlSucc (pid : Nat) : LockEv
  | tlFail (pid : Nat) : LockEv
  | acquire (pid : Nat) : LockEv
  | release (pid : Nat) : LockEv
deriving DecidableEq, Repr

/-- Modelled from the spec: the transition relation of the lock.  A blocking
`lock()` call of process `p` completes (event `acquire p`) only from the free
state; `tryLock` from a held state fires `tlFail` and leaves the state
unchanged; `unlock` by the holder frees the lock. -/
inductive LockStep : LockState → LockEv → LockState → Prop where
  | tlSucc (p : Nat) : LockStep .free (.tlSucc p) (.held p)
  | tlFail (p q : Nat) : LockStep (.held q) (.tlFail p) (.held q)
  | acquire (p : Nat) : LockStep .free (.acquire p) (.held p)
  | release (p : Nat) : LockStep (.held p) (.release p) .free

/-- A run of the lock: a list of events relating an initial state to a final
state through `LockStep`. -/
inductive LockRun : LockState → List LockEv → LockState → Prop where
  | nil (s : LockState) : LockRun s [] s
  | cons {s s' s'' : LockState} {e : LockEv} {tr : List LockEv} :
      LockStep s e s' → LockRun s' tr s'' → LockRun s (e :: tr) s''

/-- From Cli.ts 349: `doMain` first attempts `tryLock` and falls back to the
blocking `lock()` exactly when `tryLock` returned false. -/
def doMainUsesBlockingLock (p : Nat) (st : LockState) : Bool :=
  !(tryLock p st).1

/-- Events of one `doMain` invocation (Cli.ts 346-359). -/
inductive MainEv where
  | evTryLock (ok : Bool) : MainEv
  | evBlockingLock : MainEv
  | evRunFn : MainEv
  | evUnlock : MainEv
deriving DecidableEq, Repr

/-- Shallow embedding of `doMain` (Cli.ts 346-359): given whether the initial
`tryLock` succeeded and the outcome of the wrapped command function `fn`, it
yields the sequence of events the body performs and the propagated outcome.
The source runs `await fn(); lock.unlock();` with no try/finally, so when
`fn` rejects the function rethrows before reaching `lock.unlock()`. -/
def doMain (tryLockOk : Bool) (fnResult : Except String Unit) :
    List MainEv × Except String Unit :=
  let pre := if tryLockOk then [MainEv.evTryLock true]
             else [MainEv.evTryLock false, MainEv.evBlockingLock]
  match fnResult with
  | .ok _ => (pre ++ [MainEv.evRunFn, MainEv.evUnlock], .ok ())
  | .error e => (pre ++ [MainEv.evRunFn], .error e)

/-! ## Spinner and `spinnerGuard` (Cli.ts 327-339) -/

/-- The observable state of the `ora` spinner. -/
inductive SpinnerStatus where
  | spinning : SpinnerStatus
  | succeeded : SpinnerStatus
  | failed : SpinnerStatus
  | stopped : SpinnerStatus
deriving DecidableEq, Repr

/-- Shallow embedding of `spinnerGuard` (Cli.ts 327-339): runs the wrapped
operation; on success it returns the value with the spinner untouched, and on
an exception it fails the spinner when it is still spinning and rethrows the
same exception. -/
def spinnerGuard {α : Type} (sp : SpinnerStatus) (fnResult : Except String α) :
    Except String α × SpinnerStatus :=
  match fnResult with
  | .ok v => (.ok v, sp)
  | .error e => (.error e, if sp = .spinning then .failed else sp)

/-! ## Manifest store (spec §4.1) and the add/remove commands (Cli.ts 132-177) -/

/-- Modelled from the spec: one override entry of the manifest (spec §3).  The
metadata beyond the unique key (`type`, `baseFile`, `baseVersion`, `issue`,
`comment`) plays no role in the store operations and is collapsed into one
opaque `details` field. -/
structure ManifestEntry where
  overrideName : String
  details : String
deriving DecidableEq, Repr

/-- Modelled from the spec: the manifest is an ordered collection of entries
(`Manifest.ts` is not part of the given source). -/
abbrev Manifest : Type := List ManifestEntry

/-- Modelled from the spec: `has(overrideName)` of the manifest store. -/
def hasOverride (name : String) (m : Manifest) : Bool :=
  m.any (fun e => e.overrideName = name)

/-- Modelled from the spec: `remove(overrideName) -> bool` of the manifest
store — true if an entry existed and was removed (the entry is eliminated),
false otherwise. -/
def removeOverride (name : String) (m : Manifest) : Bool × Manifest :=
  (hasOverride name m, m.filter (fun e => !(e.overrideName = name : Bool)))

/-- Modelled from the spec: `add(entry)` of the manifest store — inserts or
replaces by `overrideName`. -/
def addOverride (entry : ManifestEntry) (m : Manifest) : Manifest :=
  if hasOverride entry.overrideName m then
    m.map (fun e => if e.overrideName = entry.overrideName then entry else e)
  else
    m ++ [entry]

/-- Shallow embedding of the manifest mutation performed by the CLI add flow
(Cli.ts 155-156): `Api.removeOverride` on the computed override name followed
by `Api.addOverride` of the newly built override. -/
def cliAddOverride (entry : ManifestEntry) (m : Manifest) : Manifest :=
  addOverride entry (removeOverride entry.overrideName m).2

/-- Shallow embedding of the `remove` command handler (Cli.ts 164-177):
`Api.removeOverride` returns a boolean; on `true` the command reports success
(exit code 0), on `false` it reports failure and exits with code 1. -/
def cliRemoveOverride (name : String) (m : Manifest) : Manifest × Bool × Nat :=
  let r := removeOverride name m
  if r.1 then (r.2, true, 0) else (r.2, false, 1)

/-! ## Upgrade engine (spec §4.4) and the upgrade command (Cli.ts 67-92, 183-199) -/

/-- Outcome of attempting to resync one stale entry (`UpgradeResult` of
`UpgradeStrategy.ts`, described in spec §3). -/
structure UpgradeResult where
  overrideName : String
  hasConflicts : Bool
deriving DecidableEq, Repr

/-- Modelled from the spec: the state the upgrade engine works on for one
entry — its override file content, its recorded base version, its base file
reference, and whether the validation engine flagged it out of date. -/
structure UpgradeEntry where
  overrideName : String
  baseFile : String
  baseVersion : String
  content : String
  outOfDate : Bool
deriving DecidableEq, Repr

/-- Modelled from the spec: the per-entry step of `Api.upgradeOverrides`
(spec §4.4, the engine itself is not part of the given source).  `merge` is
the external three-way-merge capability and `getBase` the upstream content
provider.  An entry not flagged stale is left untouched and produces no
result; a stale entry is merged, and when the merge reports conflicts while
`allowConflicts` is false the write is skipped but the result still reports
`hasConflicts = true`. -/
def upgradeStep (merge : String → String → String → String × Bool)
    (getBase : String → String → String) (targetVersion : String)
    (allowConflicts : Bool) (e : UpgradeEntry) :
    UpgradeEntry × Option UpgradeResult :=
  if e.outOfDate then
    let m := merge (getBase e.baseFile e.baseVersion)
                   (getBase e.baseFile targetVersion) e.content
    if m.2 ∧ ¬allowConflicts then
      (e, some ⟨e.overrideName, true⟩)
    else
      ({e with content := m.1, baseVersion := targetVersion},
       some ⟨e.overrideName, m.2⟩)
  else (e, none)

/-- Modelled from the spec: `Api.upgradeOverrides` over the whole entry list,
in manifest order — the updated entries and the list of upgrade results. -/
def upgradeOverrides (merge : String → String → String → String × Bool)
    (getBase : String → String → String) (targetVersion : String)
    (allowConflicts : Bool) (entries : List UpgradeEntry) :
    List UpgradeEntry × List UpgradeResult :=
  (entries.map (fun e =>
      (upgradeStep merge getBase targetVersion allowConflicts e).1),
   entries.filterMap (fun e =>
      (upgradeStep merge getBase targetVersion allowConflicts e).2))

/-- From Cli.ts 76-80: the yargs `conflicts` option of the upgrade command is
a boolean with `default: true`; the parsed value is the explicitly given flag
when present and `true` otherwise, and Cli.ts 90 passes it to the engine as
`allowConflicts`. -/
def conflictsOptionValue (explicitFlag : Option Bool) : Bool :=
  explicitFlag.getD true

/-! ## Validation errors and their printing (Cli.ts 110-127, 231-321) -/

/-- The closed taxonomy of validation error kinds (`ValidationError.type` of
`ValidationStrategy.ts`, spec §4.3/§7). -/
inductive ErrorType where
  | missingFromManifest : ErrorType
  | overrideNotFound : ErrorType
  | baseNotFound : ErrorType
  | outOfDate : ErrorType
  | overrideDifferentFromBase : ErrorType
  | overrideSameAsBase : ErrorType
  | expectedFile : ErrorType
  | expectedDirectory : ErrorType
deriving DecidableEq, Repr

/-- A validation error: a kind from the closed taxonomy and the name of the
override it concerns (spec §3). -/
structure ValidationError where
  type : ErrorType
  overrideName : String
deriving DecidableEq, Repr

/-- One line written to the console by the error printer: a group header
message, an override item line (` - name`), or a blank separator line. -/
inductive Line where
  | message (text : String) : Line
  | item (name : String) : Line
  | blank : Line
deriving DecidableEq, Repr

/-- The override name carried by an item line, if any. -/
def Line.itemName : Line → Option String
  | .item n => some n
  | _ => none

/-- Embedding of `String.prototype.localeCompare(_, 'en')` as used on
override names (Cli.ts 312-314): a three-valued comparison modelled by the
lexicographic order on strings (on which the en collation is a strict total
order for the path-like names the tool handles). -/
def localeCompare (a b : String) : Int :=
  if a < b then -1 else if b < a then 1 else 0

/-- The sort relation the comparator induces on strings: `a` may come before
`b` when the comparator is non-positive. -/
def nameRel (a b : String) : Prop := localeCompare a b ≤ 0

/-- The sort relation `printErrorType` uses on errors (comparing override
names, Cli.ts 312-314). -/
def errRel (a b : ValidationError) : Prop :=
  nameRel a.overrideName b.overrideName

instance : DecidableRel nameRel := fun a b =>
  inferInstanceAs (Decidable (localeCompare a b ≤ 0))

instance : DecidableRel errRel := fun a b =>
  inferInstanceAs (Decidable (nameRel a.overrideName b.overrideName))

/-- Shallow embedding of `printErrorType` (Cli.ts 306-321): `_.remove` pulls
the errors of the given kind out of the list (returning the remaining errors
unchanged), the removed errors are sorted by override name, and when any are
present the group is printed as its header message, one item line per error,
and a trailing blank line. -/
def printErrorType (t : ErrorType) (errors : List ValidationError)
    (message : String) : List Line × List ValidationError :=
  (if 0 < (List.insertionSort errRel
        (errors.filter (fun e => decide (e.type = t)))).length then
     Line.message message ::
       ((List.insertionSort errRel
           (errors.filter (fun e => decide (e.type = t)))).map
           (fun e => Line.item e.overrideName) ++ [Line.blank])
   else [],
   errors.filter (fun e => !decide (e.type = t)))

/-- One sequential `printErrorType` call of `printValidationErrors`: the
lines printed so far are extended by the new group and the surviving errors
are threaded on. -/
def printGroupsStep (acc : List Line × List ValidationError)
    (tm : ErrorType × String) : List Line × List ValidationError :=
  (acc.1 ++ (printErrorType tm.1 acc.2 tm.2).1,
   (printErrorType tm.1 acc.2 tm.2).2)

/-- The eight kinds and their header messages, in the fixed order of the
eight `printErrorType` calls of Cli.ts 242-296. -/
def kindMessages (npmName : String) : List (ErrorType × String) :=
  [(.missingFromManifest,
    "Found override files that are not listed in the manifest. Overrides can be added to the manifest by using npx " ++ npmName ++ " add <override>:"),
   (.overrideNotFound,
    "Found overrides in the manifest that do not exist on disk. Remove existing overrides using npx " ++ npmName ++ " remove <override>:"),
   (.baseNotFound,
    "Found overrides whose base files do not exist. Remove existing overrides using npx " ++ npmName ++ " remove <override>:"),
   (.outOfDate,
    "Found overrides whose original files have changed. Upgrade overrides using npx " ++ npmName ++ " upgrade:"),
   (.overrideDifferentFromBase,
    "The following overrides should be an exact copy of their base files. Ensure overrides are up to date or revert changes:"),
   (.overrideSameAsBase,
    "The following overrides are identical to their base files. Please remove them or set their type to copy:"),
   (.expectedFile,
    "The following overrides should operate on files, but list directories:"),
   (.expectedDirectory,
    "The following overrides should operate on directories, but listed files:")]

/-- Shallow embedding of `printValidationErrors` (Cli.ts 231-301): nothing is
printed for an empty list; otherwise the eight kinds are printed in the fixed
source order (the fold over `kindMessages` unrolls to the eight sequential
`printErrorType` calls) after an initial blank separator line, and if any
error survives all eight groups the function throws
`Unprinted errors present`. -/
def printValidationErrors (npmName : String)
    (validationErrors : List ValidationError) : Except String (List Line) :=
  if validationErrors.length = 0 then .ok []
  else if ((kindMessages npmName).foldl printGroupsStep
      ([], validationErrors)).2.length ≠ 0 then
    .error "Unprinted errors present"
  else
    .ok (Line.blank ::
      ((kindMessages npmName).foldl printGroupsStep ([], validationErrors)).1)

/-- Shallow embedding of the `validate` command handler (Cli.ts 110-127),
given the error list the external `Api.validateManifest` returned: on an
empty list the spinner succeeds; otherwise the spinner fails, the errors are
printed and the process exit code is set to 1.  The printer output is
threaded as an `Except` so that an `Unprinted errors present` throw (which
`spinnerGuard` would rethrow, the spinner being already failed) is visible in
the result. -/
def validateManifest (npmName : String)
    (validationErrors : List ValidationError) :
    SpinnerStatus × Nat × Except String (List Line) :=
  if validationErrors.length = 0 then (.succeeded, 0, .ok [])
  else
    match printValidationErrors npmName validationErrors with
    | .ok lines => (.failed, 1, .ok lines)
    | .error e => (.failed, 0, .error e)


/-! ## Helper lemmas -/

/-- In a lock run starting from a state held by `q`, as long as `q` never
releases, no blocking acquisition by any process can occur: every step from a
held state is a failing `tryLock` or the release by the holder. -/
theorem lockRun_held_no_acquire (q : Nat) :
    ∀ (tr : List LockEv) (s : LockState) (p : Nat),
      LockRun (.held q) tr s → LockEv.release q ∉ tr → LockEv.acquire p ∉ tr := by
  intro tr
  induction tr with
  | nil => intro s p _ _; simp
  | cons e tl ih =>
      intro s p hrun hrel
      cases hrun with
      | cons hstep hrest =>
          cases hstep with
          | tlFail p' q' =>
              intro hmem
              rcases List.mem_cons.mp hmem with h | h
              · exact LockEv.noConfusion h
              · exact ih _ p hrest
                  (fun hm => hrel (List.mem_cons_of_mem _ hm)) h
          | release p' =>
              exact absurd (List.mem_cons_self _ _) hrel

/-! ## Claim theorems -/

/-- C7: `spinnerGuard` returns exactly the value the wrapped operation
produces when it succeeds (spinner untouched), and when the operation throws
it propagates the very same exception, failing the spinner when it was still
spinning — failures are never swallowed. -/
theorem c7_spinnerGuard_propagates {α : Type} (sp : SpinnerStatus)
    (r : Except String α) :
    (spinnerGuard sp r).1 = r ∧
    (∀ v, r = .ok v → (spinnerGuard sp r).2 = sp) ∧
    (∀ e, r = .error e → sp = .spinning → (spinnerGuard sp r).2 = .failed) := by
  cases r with
  | ok v =>
      refine ⟨rfl, fun _ _ => rfl, ?_⟩
      intro e he _
      exact Except.noConfusion he
  | error e =>
      refine ⟨rfl, ?_, ?_⟩
      · intro v hv
        exact Except.noConfusion hv
      · intro e' _ hsp
        simp [spinnerGuard, hsp]

/-- Witness for C7 at a concrete throwing operation and a spinning spinner. -/
theorem c7_spinnerGuard_propagates_witness :
    (spinnerGuard SpinnerStatus.spinning
      (Except.error "boom" : Except String Nat)).1 = Except.error "boom" ∧
    (spinnerGuard SpinnerStatus.spinning
      (Except.error "boom" : Except String Nat)).2 = SpinnerStatus.failed := by
  have h := c7_spinnerGuard_propagates SpinnerStatus.spinning
    (Except.error "boom" : Except String Nat)
  exact ⟨h.1, h.2.2 "boom" rfl rfl⟩

/-- C1 (counterexample): a `doMain` run whose command function throws
propagates the exception but performs no `evUnlock` — the source awaits `fn`
and only then calls `lock.unlock()`, with no try/finally, so the lock is not
released on the throwing exit path. -/
theorem c1_lock_not_released_on_throw :
    (doMain true (Except.error "boom")).2 = Except.error "boom" ∧
    MainEv.evUnlock ∉ (doMain true (Except.error "boom")).1 := by
  exact ⟨rfl, by decide⟩

/-- C1 (amended): the lock is released exactly on the normal-completion
path — `doMain` emits `evUnlock` when the command function completes
successfully, and emits no `evUnlock` (while propagating the exception) when
the command function throws. -/
theorem c1_doMain_unlock_on_success_only (tlOk : Bool)
    (r : Except String Unit) :
    (∀ u, r = .ok u → MainEv.evUnlock ∈ (doMain tlOk r).1) ∧
    (∀ e, r = .error e →
      MainEv.evUnlock ∉ (doMain tlOk r).1 ∧ (doMain tlOk r).2 = .error e) := by
  constructor
  · intro u hu
    subst hu
    cases tlOk <;> simp [doMain]
  · intro e he
    subst he
    cases tlOk <;> exact ⟨by simp [doMain], rfl⟩

/-- Witness for C1 (amended) at a successful run and at a throwing run. -/
theorem c1_doMain_unlock_on_success_only_witness :
    MainEv.evUnlock ∈ (doMain false (Except.ok ())).1 ∧
    MainEv.evUnlock ∉ (doMain true (Except.error "x")).1 := by
  exact ⟨(c1_doMain_unlock_on_success_only false (Except.ok ())).1 () rfl,
         ((c1_doMain_unlock_on_success_only true (Except.error "x")).2 "x" rfl).1⟩

/-- C8: while process `q` holds the lock, another process's `tryLock`
returns false immediately with the lock state unchanged; in any lock run
from the held state, no blocking acquisition by another process occurs
before `q` releases; and `doMain` falls back to the blocking `lock()`
exactly when its initial `tryLock` fails. -/
theorem c8_lock_mutual_exclusion (p q : Nat) :
    tryLock p (LockState.held q) = (false, LockState.held q) ∧
    (∀ (tr : List LockEv) (s : LockState), LockRun (LockState.held q) tr s →
       LockEv.release q ∉ tr → LockEv.acquire p ∉ tr) ∧
    doMainUsesBlockingLock p (LockState.held q) = true ∧
    doMainUsesBlockingLock p LockState.free = false := by
  refine ⟨rfl, ?_, rfl, rfl⟩
  intro tr s hrun hrel
  exact lockRun_held_no_acquire q tr s p hrun hrel

/-- Witness for C8: a concrete run in which process 2 keeps failing
`tryLock` while process 1 holds the lock. -/
theorem c8_lock_mutual_exclusion_witness :
    tryLock 2 (LockState.held 1) = (false, LockState.held 1) ∧
    LockEv.acquire 2 ∉ [LockEv.tlFail 2, LockEv.tlFail 2] := by
  refine ⟨(c8_lock_mutual_exclusion 2 1).1, ?_⟩
  exact (c8_lock_mutual_exclusion 2 1).2.1 [LockEv.tlFail 2, LockEv.tlFail 2]
    (LockState.held 1)
    (LockRun.cons (LockStep.tlFail 2 1)
      (LockRun.cons (LockStep.tlFail 2 1) (LockRun.nil _)))
    (by decide)

/-- C2: in an upgrade run with `allowConflicts = false`, every entry whose
three-way merge reports conflicts is left unchanged (same override content,
same `baseVersion`) by the engine, while the run's result list still
contains it with `hasConflicts = true`. -/
theorem c2_upgrade_conflict_gating
    (merge : String → String → String → String × Bool)
    (getBase : String → String → String) (target : String)
    (entries : List UpgradeEntry) (e : UpgradeEntry)
    (hmem : e ∈ entries) (ho : e.outOfDate = true)
    (hc : (merge (getBase e.baseFile e.baseVersion)
            (getBase e.baseFile target) e.content).2 = true) :
    upgradeStep merge getBase target false e = (e, some ⟨e.overrideName, true⟩) ∧
    (⟨e.overrideName, true⟩ : UpgradeResult) ∈
      (upgradeOverrides merge getBase target false entries).2 ∧
    e ∈ (upgradeOverrides merge getBase target false entries).1 := by
  have hstep : upgradeStep merge getBase target false e =
      (e, some ⟨e.overrideName, true⟩) := by
    simp [upgradeStep, ho, hc]
  refine ⟨hstep, ?_, ?_⟩
  · exact List.mem_filterMap.mpr ⟨e, hmem, by rw [hstep]⟩
  · exact List.mem_map.mpr ⟨e, hmem, by rw [hstep]⟩

/-- Witness for C2: a concrete conflicted entry passes through the engine
unchanged yet is reported with `hasConflicts = true`. -/
theorem c2_upgrade_conflict_gating_witness :
    upgradeStep (fun _ _ ours => (ours ++ "<<<", true)) (fun _ v => v)
      "0.63.2" false ⟨"foo.cpp", "base.cpp", "0.63.0", "body", true⟩ =
      (⟨"foo.cpp", "base.cpp", "0.63.0", "body", true⟩,
       some ⟨"foo.cpp", true⟩) ∧
    (⟨"foo.cpp", true⟩ : UpgradeResult) ∈
      (upgradeOverrides (fun _ _ ours => (ours ++ "<<<", true)) (fun _ v => v)
        "0.63.2" false [⟨"foo.cpp", "base.cpp", "0.63.0", "body", true⟩]).2 := by
  have h := c2_upgrade_conflict_gating (fun _ _ ours => (ours ++ "<<<", true))
    (fun _ v => v) "0.63.2" [⟨"foo.cpp", "base.cpp", "0.63.0", "body", true⟩]
    ⟨"foo.cpp", "base.cpp", "0.63.0", "body", true⟩
    (List.mem_singleton.mpr rfl) rfl rfl
  exact ⟨h.1, h.2.1⟩

/-- C9: the upgrade command's `conflicts` option defaults to true, so with
no explicit flag the engine runs with `allowConflicts = true` and a stale
entry whose merge reports conflicts has the merged content (conflict markers
included) written and its base version advanced. -/
theorem c9_conflicts_defaults_true
    (merge : String → String → String → String × Bool)
    (getBase : String → String → String) (target : String) (e : UpgradeEntry)
    (ho : e.outOfDate = true)
    (hc : (merge (getBase e.baseFile e.baseVersion)
            (getBase e.baseFile target) e.content).2 = true) :
    conflictsOptionValue none = true ∧
    upgradeStep merge getBase target (conflictsOptionValue none) e =
      ({e with
          content := (merge (getBase e.baseFile e.baseVersion)
            (getBase e.baseFile target) e.content).1,
          baseVersion := target},
       some ⟨e.overrideName, true⟩) := by
  refine ⟨rfl, ?_⟩
  simp [upgradeStep, ho, hc, conflictsOptionValue]

/-- Witness for C9 at a concrete conflicted entry. -/
theorem c9_conflicts_defaults_true_witness :
    conflictsOptionValue none = true ∧
    upgradeStep (fun _ _ ours => (ours ++ "<<<", true)) (fun _ v => v)
      "0.63.2" (conflictsOptionValue none)
      ⟨"foo.cpp", "base.cpp", "0.63.0", "body", true⟩ =
      (⟨"foo.cpp", "base.cpp", "0.63.2", "body<<<", true⟩,
       some ⟨"foo.cpp", true⟩) := by
  have h := c9_conflicts_defaults_true (fun _ _ ours => (ours ++ "<<<", true))
    (fun _ v => v) "0.63.2" ⟨"foo.cpp", "base.cpp", "0.63.0", "body", true⟩
    rfl rfl
  exact ⟨h.1, h.2⟩

/-- After filtering a name out of a manifest, the store no longer has it. -/
theorem hasOverride_filter_self (name : String) (m : Manifest) :
    hasOverride name (m.filter (fun e => !(e.overrideName = name : Bool))) =
      false := by
  simp [hasOverride, List.any_eq_true, List.mem_filter]

/-- The CLI add flow reduces to: drop every entry with the new name, then
append the new entry. -/
theorem cliAddOverride_eq (entry : ManifestEntry) (m : Manifest) :
    cliAddOverride entry m =
      (m.filter (fun e => !(e.overrideName = entry.overrideName : Bool)))
        ++ [entry] := by
  unfold cliAddOverride addOverride removeOverride
  rw [hasOverride_filter_self]
  simp

/-- C4: the CLI add flow replaces rather than duplicates — afterwards exactly
one entry carries the added override name, the name-uniqueness invariant is
preserved, and re-adding the same entry is idempotent. -/
theorem c4_add_replaces_uniquely (entry : ManifestEntry) (m : Manifest)
    (hnodup : (m.map (fun e => e.overrideName)).Nodup) :
    (cliAddOverride entry m).countP
      (fun e => decide (e.overrideName = entry.overrideName)) = 1 ∧
    ((cliAddOverride entry m).map (fun e => e.overrideName)).Nodup ∧
    cliAddOverride entry (cliAddOverride entry m) = cliAddOverride entry m := by
  refine ⟨?_, ?_, ?_⟩
  · rw [cliAddOverride_eq]
    rw [List.countP_append]
    have h0 : (m.filter
        (fun e => !(e.overrideName = entry.overrideName : Bool))).countP
        (fun e => decide (e.overrideName = entry.overrideName)) = 0 := by
      rw [List.countP_eq_zero]
      intro a ha
      have := (List.mem_filter.mp ha).2
      simpa using this
    simp [h0]
  · rw [cliAddOverride_eq]
    rw [List.map_append]
    rw [List.nodup_append]
    refine ⟨?_, by simp, ?_⟩
    · exact hnodup.sublist (m.filter_sublist.map _)
    · intro a ha hb
      simp only [List.map_cons, List.map_nil, List.mem_singleton] at hb
      subst hb
      rcases List.mem_map.mp ha with ⟨e, he, hname⟩
      have := (List.mem_filter.mp he).2
      rw [hname] at this
      simp at this
  · rw [cliAddOverride_eq, cliAddOverride_eq (m := m)]
    rw [List.filter_append]
    have h1 : (m.filter
        (fun e => !(e.overrideName = entry.overrideName : Bool))).filter
        (fun e => !(e.overrideName = entry.overrideName : Bool)) =
        m.filter (fun e => !(e.overrideName = entry.overrideName : Bool)) := by
      rw [List.filter_eq_self]
      intro a ha
      exact (List.mem_filter.mp ha).2
    have h2 : ([entry] : List ManifestEntry).filter
        (fun e => !(e.overrideName = entry.overrideName : Bool)) = [] := by
      simp
    rw [h1, h2, List.append_nil]

/-- Witness for C4 at a concrete manifest already containing the name. -/
theorem c4_add_replaces_uniquely_witness :
    (cliAddOverride ⟨"a", "new"⟩ [⟨"a", "old"⟩, ⟨"b", "x"⟩]).countP
      (fun e => decide (e.overrideName =
        (⟨"a", "new"⟩ : ManifestEntry).overrideName)) = 1 ∧
    ((cliAddOverride ⟨"a", "new"⟩ [⟨"a", "old"⟩, ⟨"b", "x"⟩]).map
      (fun e => e.overrideName)).Nodup ∧
    cliAddOverride ⟨"a", "new"⟩
        (cliAddOverride ⟨"a", "new"⟩ [⟨"a", "old"⟩, ⟨"b", "x"⟩]) =
      cliAddOverride ⟨"a", "new"⟩ [⟨"a", "old"⟩, ⟨"b", "x"⟩] :=
  c4_add_replaces_uniquely ⟨"a", "new"⟩ [⟨"a", "old"⟩, ⟨"b", "x"⟩] (by decide)

/-- C5: `remove` returns false exactly when no entry carries the name (and
then leaves the manifest as is), returns true exactly when one exists and
then eliminates it; the CLI remove command reports the boolean as its
outcome, exiting 1 exactly in the false case. -/
theorem c5_remove_returns_bool (name : String) (m : Manifest) :
    ((removeOverride name m).1 = false ↔ ∀ e ∈ m, e.overrideName ≠ name) ∧
    ((removeOverride name m).1 = false → (removeOverride name m).2 = m) ∧
    ((removeOverride name m).1 = true ↔ ∃ e ∈ m, e.overrideName = name) ∧
    (∀ e ∈ (removeOverride name m).2, e.overrideName ≠ name) ∧
    ((cliRemoveOverride name m).2.1 = (removeOverride name m).1) ∧
    ((cliRemoveOverride name m).2.2 = 1 ↔ (removeOverride name m).1 = false) := by
  refine ⟨?_, ?_, ?_, ?_, ?_, ?_⟩
  · simp [removeOverride, hasOverride, List.any_eq_true]
  · intro h
    have hall : ∀ e ∈ m, e.overrideName ≠ name := by
      simpa [removeOverride, hasOverride, List.any_eq_true] using h
    simp only [removeOverride]
    rw [List.filter_eq_self]
    intro a ha
    simpa using hall a ha
  · simp [removeOverride, hasOverride, List.any_eq_true]
  · intro e he
    have := (List.mem_filter.mp he).2
    simpa using this
  · by_cases h : (removeOverride name m).1 <;>
      simp [cliRemoveOverride, h]
  · by_cases h : (removeOverride name m).1 <;>
      simp [cliRemoveOverride, h]

/-- Witness for C5: removing an absent name reports false and exit code 1;
removing a present name reports true and eliminates the entry. -/
theorem c5_remove_returns_bool_witness :
    (removeOverride "x" [(⟨"a", "1"⟩ : ManifestEntry)]).1 = false ∧
    (cliRemoveOverride "x" [(⟨"a", "1"⟩ : ManifestEntry)]).2.2 = 1 ∧
    (removeOverride "a" [(⟨"a", "1"⟩ : ManifestEntry)]).1 = true ∧
    (∀ e ∈ (removeOverride "a" [(⟨"a", "1"⟩ : ManifestEntry)]).2,
      e.overrideName ≠ "a") := by
  have h1 := c5_remove_returns_bool "x" [(⟨"a", "1"⟩ : ManifestEntry)]
  have h2 := c5_remove_returns_bool "a" [(⟨"a", "1"⟩ : ManifestEntry)]
  refine ⟨h1.1.mpr (by decide), ?_, ?_, h2.2.2.2.1⟩
  · exact h1.2.2.2.2.2.mpr (h1.1.mpr (by decide))
  · exact h2.2.2.1.mpr ⟨⟨"a", "1"⟩, by simp⟩

/-- The comparator relation on names is the lexicographic order. -/
theorem nameRel_iff (a b : String) : nameRel a b ↔ a ≤ b := by
  unfold nameRel localeCompare
  by_cases h1 : a < b
  · rw [if_pos h1]
    constructor
    · intro _; exact le_of_lt h1
    · intro _; decide
  · rw [if_neg h1]
    by_cases h2 : b < a
    · rw [if_pos h2]
      constructor
      · intro hcontra; exact absurd hcontra (by decide)
      · intro hle; exact absurd h2 (not_lt.mpr hle)
    · rw [if_neg h2]
      constructor
      · intro _; exact not_lt.mp h2
      · intro _; decide

instance : IsTotal String nameRel :=
  ⟨fun a b => by rw [nameRel_iff, nameRel_iff]; exact le_total a b⟩

instance : IsTrans String nameRel :=
  ⟨fun a b c hab hbc => (nameRel_iff a c).mpr
    (le_trans ((nameRel_iff a b).mp hab) ((nameRel_iff b c).mp hbc))⟩

instance : IsAntisymm String nameRel :=
  ⟨fun a b hab hba =>
    le_antisymm ((nameRel_iff a b).mp hab) ((nameRel_iff b a).mp hba)⟩

instance : IsTotal ValidationError errRel :=
  ⟨fun a b => IsTotal.total (r := nameRel) a.overrideName b.overrideName⟩

instance : IsTrans ValidationError errRel :=
  ⟨fun a b c hab hbc =>
    IsTrans.trans (r := nameRel) a.overrideName b.overrideName c.overrideName
      hab hbc⟩

/-- Sorting by override name is canonical: permuted error lists sort to the
same name sequence (the comparator is antisymmetric on names). -/
theorem sortedNames_eq_of_perm {l₁ l₂ : List ValidationError} (h : l₁.Perm l₂) :
    (List.insertionSort errRel l₁).map (fun e => e.overrideName) =
      (List.insertionSort errRel l₂).map (fun e => e.overrideName) := by
  apply List.eq_of_perm_of_sorted (r := nameRel)
  · exact ((List.perm_insertionSort errRel l₁).map _).trans
      ((h.map _).trans ((List.perm_insertionSort errRel l₂).map _).symm)
  · exact List.Pairwise.map _ (fun a b hab => hab)
      (List.sorted_insertionSort errRel l₁)
  · exact List.Pairwise.map _ (fun a b hab => hab)
      (List.sorted_insertionSort errRel l₂)

/-- Extracting item names from item lines recovers the override names. -/
theorem filterMap_itemName_items (s : List ValidationError) :
    List.filterMap (Line.itemName ∘ fun e => Line.item e.overrideName) s =
      s.map (fun e => e.overrideName) := by
  induction s with
  | nil => rfl
  | cons a tl ih => simp [Line.itemName, Function.comp, ih]

/-- The item lines a group prints are exactly its sorted override names. -/
theorem printErrorType_items (t : ErrorType) (l : List ValidationError)
    (msg : String) :
    (printErrorType t l msg).1.filterMap Line.itemName =
      (List.insertionSort errRel
        (l.filter (fun e => decide (e.type = t)))).map
        (fun e => e.overrideName) := by
  unfold printErrorType
  by_cases h : 0 < (List.insertionSort errRel
      (l.filter (fun e => decide (e.type = t)))).length
  · rw [if_pos h]
    simp [List.filterMap_cons, List.filterMap_append, Line.itemName,
      filterMap_itemName_items]
  · rw [if_neg h]
    have hnil : List.insertionSort errRel
        (l.filter (fun e => decide (e.type = t))) = [] := by
      cases hs : List.insertionSort errRel
          (l.filter (fun e => decide (e.type = t))) with
      | nil => rfl
      | cons a tl => rw [hs] at h; simp at h
    rw [hnil]
    simp

/-- The item lines a group prints are, as a multiset, the names of the
errors of its kind. -/
theorem printErrorType_items_perm (t : ErrorType) (l : List ValidationError)
    (msg : String) :
    ((printErrorType t l msg).1.filterMap Line.itemName).Perm
      ((l.filter (fun e => decide (e.type = t))).map
        (fun e => e.overrideName)) := by
  rw [printErrorType_items]
  exact (List.perm_insertionSort errRel _).map _

/-- A group's printed lines depend only on the multiset of its input. -/
theorem printErrorType_fst_congr (t : ErrorType) (msg : String)
    {l₁ l₂ : List ValidationError} (h : l₁.Perm l₂) :
    (printErrorType t l₁ msg).1 = (printErrorType t l₂ msg).1 := by
  have hf : (l₁.filter (fun e => decide (e.type = t))).Perm
      (l₂.filter (fun e => decide (e.type = t))) := h.filter _
  have hnames := sortedNames_eq_of_perm hf
  have hlen : (List.insertionSort errRel
        (l₁.filter (fun e => decide (e.type = t)))).length =
      (List.insertionSort errRel
        (l₂.filter (fun e => decide (e.type = t)))).length := by
    have := congrArg List.length hnames
    simpa using this
  have hitems : (List.insertionSort errRel
        (l₁.filter (fun e => decide (e.type = t)))).map
        (fun e => Line.item e.overrideName) =
      (List.insertionSort errRel
        (l₂.filter (fun e => decide (e.type = t)))).map
        (fun e => Line.item e.overrideName) := by
    have := congrArg (List.map Line.item) hnames
    simpa [List.map_map, Function.comp] using this
  unfold printErrorType
  by_cases h0 : 0 < (List.insertionSort errRel
      (l₁.filter (fun e => decide (e.type = t)))).length
  · rw [if_pos h0, if_pos (hlen ▸ h0), hitems]
  · rw [if_neg h0, if_neg (hlen ▸ h0)]

/-- After folding a list of kinds, the surviving errors are exactly those
whose kind is not among the processed ones. -/
theorem foldl_printGroups_snd (ks : List (ErrorType × String)) :
    ∀ (ls : List Line) (rem : List ValidationError),
      (ks.foldl printGroupsStep (ls, rem)).2 =
        rem.filter (fun e => decide (e.type ∉ ks.map Prod.fst)) := by
  induction ks with
  | nil =>
      intro ls rem
      simp
  | cons k ks ih =>
      intro ls rem
      rw [List.foldl_cons]
      rw [ih]
      show ((rem.filter (fun e => !decide (e.type = k.1))).filter
          (fun e => decide (e.type ∉ ks.map Prod.fst))) = _
      rw [List.filter_filter]
      apply List.filter_congr
      intro e _
      by_cases h1 : e.type = k.1 <;>
        by_cases h2 : e.type ∈ ks.map Prod.fst <;>
        simp [h1, h2]

/-- Folding the kinds preserves, as a multiset, the printed item names plus
the names of the surviving errors. -/
theorem foldl_printGroups_items (ks : List (ErrorType × String)) :
    ∀ (ls : List Line) (rem : List ValidationError),
      ((ks.foldl printGroupsStep (ls, rem)).1.filterMap Line.itemName ++
        ((ks.foldl printGroupsStep (ls, rem)).2.map
          (fun e => e.overrideName))).Perm
      (ls.filterMap Line.itemName ++ rem.map (fun e => e.overrideName)) := by
  induction ks with
  | nil =>
      intro ls rem
      exact List.Perm.refl _
  | cons k ks ih =>
      intro ls rem
      rw [List.foldl_cons]
      refine (ih (ls ++ (printErrorType k.1 rem k.2).1)
        (printErrorType k.1 rem k.2).2).trans ?_
      rw [List.filterMap_append, List.append_assoc]
      refine List.Perm.append_left _ ?_
      refine ((printErrorType_items_perm k.1 rem k.2).append_right _).trans ?_
      have hpart := (List.filter_append_perm
        (fun e => decide (e.type = k.1)) rem).map (fun e => e.overrideName)
      rw [List.map_append] at hpart
      exact hpart

/-- Folding the kinds is congruent under permutation of the error list: the
printed lines agree and the survivors are permuted. -/
theorem foldl_printGroups_congr (ks : List (ErrorType × String)) :
    ∀ (ls : List Line) {rem₁ rem₂ : List ValidationError}, rem₁.Perm rem₂ →
      (ks.foldl printGroupsStep (ls, rem₁)).1 =
        (ks.foldl printGroupsStep (ls, rem₂)).1 ∧
      ((ks.foldl printGroupsStep (ls, rem₁)).2).Perm
        ((ks.foldl printGroupsStep (ls, rem₂)).2) := by
  induction ks with
  | nil =>
      intro ls rem₁ rem₂ h
      exact ⟨rfl, h⟩
  | cons k ks ih =>
      intro ls rem₁ rem₂ h
      rw [List.foldl_cons, List.foldl_cons]
      have hfst : (printErrorType k.1 rem₁ k.2).1 =
          (printErrorType k.1 rem₂ k.2).1 :=
        printErrorType_fst_congr k.1 k.2 h
      have hsnd : ((printErrorType k.1 rem₁ k.2).2).Perm
          ((printErrorType k.1 rem₂ k.2).2) := h.filter _
      simp only [printGroupsStep]
      rw [hfst]
      exact ih (ls ++ (printErrorType k.1 rem₂ k.2).1) hsnd

/-- Every error kind belongs to the eight groups `printValidationErrors`
prints, so no error survives the fold. -/
theorem errors_covered (npmName : String) (l : List ValidationError) :
    l.filter (fun e =>
      decide (e.type ∉ (kindMessages npmName).map Prod.fst)) = [] := by
  rw [List.filter_eq_nil_iff]
  intro e _
  cases h : e.type <;> simp [kindMessages, h]

/-- `printValidationErrors` never throws: the fold over the closed taxonomy
leaves no unprinted error behind. -/
theorem printValidationErrors_ok (npmName : String)
    (errs : List ValidationError) :
    ∃ ls, printValidationErrors npmName errs = .ok ls := by
  unfold printValidationErrors
  by_cases h : errs.length = 0
  · rw [if_pos h]
    exact ⟨[], rfl⟩
  · rw [if_neg h]
    have hrem : ((kindMessages npmName).foldl printGroupsStep
        ([], errs)).2 = [] := by
      rw [foldl_printGroups_snd]
      exact errors_covered npmName errs
    rw [hrem]
    simp

/-- C6: for every error list over the closed eight-kind taxonomy,
`printValidationErrors` completes without throwing (the `Unprinted errors
present` branch is unreachable) and prints every error exactly once: the
multiset of printed item lines is exactly the multiset of the errors. -/
theorem c6_printValidationErrors_total (npmName : String)
    (errs : List ValidationError) :
    ∃ ls, printValidationErrors npmName errs = .ok ls ∧
      (ls.filterMap Line.itemName).Perm
        (errs.map (fun e => e.overrideName)) := by
  by_cases h : errs.length = 0
  · refine ⟨[], ?_, ?_⟩
    · unfold printValidationErrors
      rw [if_pos h]
    · have he : errs = [] := List.length_eq_zero.mp h
      subst he
      simp
  · have hrem : ((kindMessages npmName).foldl printGroupsStep
        ([], errs)).2 = [] := by
      rw [foldl_printGroups_snd]
      exact errors_covered npmName errs
    have hitems := foldl_printGroups_items (kindMessages npmName) [] errs
    rw [hrem] at hitems
    simp only [List.map_nil, List.append_nil, List.filterMap_nil,
      List.nil_append] at hitems
    refine ⟨Line.blank ::
      ((kindMessages npmName).foldl printGroupsStep ([], errs)).1, ?_, ?_⟩
    · unfold printValidationErrors
      rw [if_neg h]
      simp [hrem]
    · simpa [List.filterMap_cons, Line.itemName] using hitems

/-- C3: the validate command reports success exactly when the validation
returned an empty error list; on a non-empty list the spinner fails, the
errors are printed (returned as data, not thrown) and the exit code is 1. -/
theorem c3_validate_success_iff (npmName : String)
    (errs : List ValidationError) :
    ((validateManifest npmName errs).1 = SpinnerStatus.succeeded ↔
      errs = []) ∧
    (errs ≠ [] → ∃ ls, validateManifest npmName errs =
      (SpinnerStatus.failed, 1, Except.ok ls)) := by
  constructor
  · constructor
    · intro hs
      by_contra hne
      have h : ¬errs.length = 0 := fun hl => hne (List.length_eq_zero.mp hl)
      unfold validateManifest at hs
      rw [if_neg h] at hs
      obtain ⟨ls, hok⟩ := printValidationErrors_ok npmName errs
      rw [hok] at hs
      simp at hs
    · intro he
      subst he
      unfold validateManifest
      simp
  · intro hne
    have h : ¬errs.length = 0 := fun hl => hne (List.length_eq_zero.mp hl)
    obtain ⟨ls, hok⟩ := printValidationErrors_ok npmName errs
    refine ⟨ls, ?_⟩
    unfold validateManifest
    rw [if_neg h, hok]

/-- Witness for C3: an empty validation succeeds; a singleton error list
fails with exit code 1 and printed (not thrown) errors. -/
theorem c3_validate_success_iff_witness :
    (validateManifest "pkg" []).1 = SpinnerStatus.succeeded ∧
    ∃ ls, validateManifest "pkg" [⟨ErrorType.outOfDate, "a"⟩] =
      (SpinnerStatus.failed, 1, Except.ok ls) := by
  refine ⟨(c3_validate_success_iff "pkg" []).1.mpr rfl, ?_⟩
  exact (c3_validate_success_iff "pkg" [⟨ErrorType.outOfDate, "a"⟩]).2
    (by simp)

/-- C10: `printValidationErrors` is deterministic in the multiset of errors:
permuted input lists print identical output (groups are emitted in the fixed
kind order and each group is sorted by override name). -/
theorem c10_print_deterministic (npmName : String)
    {l₁ l₂ : List ValidationError} (h : l₁.Perm l₂) :
    printValidationErrors npmName l₁ = printValidationErrors npmName l₂ := by
  unfold printValidationErrors
  have hlen : l₁.length = l₂.length := h.length_eq
  by_cases h0 : l₁.length = 0
  · have hc2 : l₂.length = 0 := by rw [← hlen]; exact h0
    rw [if_pos h0, if_pos hc2]
  · have hc2 : ¬l₂.length = 0 := by rw [← hlen]; exact h0
    rw [if_neg h0, if_neg hc2]
    obtain ⟨hfst, hsnd⟩ := foldl_printGroups_congr (kindMessages npmName) [] h
    have hl2 := hsnd.length_eq
    rw [hfst, hl2]

/-- Witness for C10: two concrete permuted error lists print identically. -/
theorem c10_print_deterministic_witness :
    printValidationErrors "pkg"
      [⟨ErrorType.outOfDate, "b"⟩, ⟨ErrorType.expectedFile, "a"⟩] =
    printValidationErrors "pkg"
      [⟨ErrorType.expectedFile, "a"⟩, ⟨ErrorType.outOfDate, "b"⟩] :=
  c10_print_deterministic "pkg" (List.Perm.swap _ _ _)
